import Mathlib

/-!
Shallow embedding of the `welch-sde` crate (Welch averaged-periodogram spectral
estimation).  The crate's `lib.rs` and `power_spectrum.rs` are embedded from the
source.  The modules `builder.rs`, `welch.rs`, `window.rs`, `periodogram.rs` and
`spectral_density.rs` are declared in `lib.rs` but their source is not
available, so their contents are modelled from the specification (each such
definition carries a `Modelled from the spec` doc comment).

Floating-point samples (`f32`/`f64`) are embedded as real numbers, complex FFT
values as `ℂ`.
-/

namespace WelchSde

/-- Modelled from the spec (window.rs missing): the two provided window
variants, rectangular (`One`) and `Hann`. -/
inductive WindowKind : Type
  | one : WindowKind
  | hann : WindowKind
deriving DecidableEq

/-- Modelled from the spec (window.rs missing): rectangular window — all
coefficients equal 1. -/
def One.coefficients (L : ℕ) : List ℝ :=
  List.replicate L 1

/-- Modelled from the spec (window.rs missing): Hann window — coefficient `i`
equals `0.5 * (1 - cos(2*pi*i/(L-1)))` for `L > 1`, and the single coefficient
is `1` for `L = 1`. -/
noncomputable def Hann.coefficients (L : ℕ) : List ℝ :=
  if L = 1 then [1]
  else (List.range L).map (fun i : ℕ => 0.5 * (1 - Real.cos (2 * Real.pi * (i : ℝ) / ((L : ℝ) - 1))))

/-- Window coefficients of each window kind for a segment of length `L`. -/
noncomputable def WindowKind.coefficients : WindowKind → ℕ → List ℝ
  | WindowKind.one, L => One.coefficients L
  | WindowKind.hann, L => Hann.coefficients L

/-- Modelled from the spec (welch.rs missing): the Welch estimator state fixed
at construction — borrowed signal, sampling frequency, segment length, overlap,
window kind and precomputed window coefficients. -/
structure Welch : Type where
  signal : List ℝ
  fs : ℝ
  segmentLength : ℕ
  overlap : ℕ
  windowKind : WindowKind
  window : List ℝ

/-- Modelled from the spec (builder.rs missing): the construction-time error
taxonomy — zero segment length, segment longer than the signal, overlap not
smaller than the segment length, non-positive sampling frequency. -/
inductive BuildError : Type
  | zeroSegmentLength : BuildError
  | segmentTooLong : BuildError
  | overlapTooLarge : BuildError
  | nonPositiveFs : BuildError
deriving DecidableEq

/-- Modelled from the spec (builder.rs missing): the immutable configuration
object capturing the signal, sampling frequency, segment length, overlap and
window variant. -/
structure Builder : Type where
  signal : List ℝ
  fs : ℝ
  segmentLength : ℕ
  overlap : ℕ
  windowKind : WindowKind

/-- The configuration invariants of the data model: `segment_length >= 1`,
`segment_length <= signal.len()`, `overlap < segment_length`, `fs > 0`. -/
def Builder.valid (b : Builder) : Prop :=
  0 < b.segmentLength ∧ b.segmentLength ≤ b.signal.length ∧
    b.overlap < b.segmentLength ∧ 0 < b.fs

/-- Modelled from the spec (builder.rs missing): `build()` validates the
configuration invariants and fails with a construction error if violated; on
success it returns a Welch estimator with segmentation parameters and window
coefficients fixed, never clamping or defaulting any value. -/
noncomputable def Builder.build (b : Builder) : Except BuildError Welch :=
  if b.segmentLength = 0 then Except.error BuildError.zeroSegmentLength
  else if b.signal.length < b.segmentLength then Except.error BuildError.segmentTooLong
  else if b.segmentLength ≤ b.overlap then Except.error BuildError.overlapTooLarge
  else if b.fs ≤ 0 then Except.error BuildError.nonPositiveFs
  else Except.ok
    { signal := b.signal
      fs := b.fs
      segmentLength := b.segmentLength
      overlap := b.overlap
      windowKind := b.windowKind
      window := b.windowKind.coefficients b.segmentLength }

/-- Segment stride: `segment_length - overlap`. -/
def Welch.stride (w : Welch) : ℕ :=
  w.segmentLength - w.overlap

/-- Modelled from the spec (welch.rs missing): the segment count
`k = 1 + floor((N - segment_length) / (segment_length - overlap))`. -/
def Welch.k (w : Welch) : ℕ :=
  1 + (w.signal.length - w.segmentLength) / w.stride

/-- Modelled from the spec (welch.rs missing): the `i`-th segment, a
`segment_length`-wide view into the signal starting at index `i * stride`. -/
def Welch.segment (w : Welch) (i : ℕ) : List ℝ :=
  (w.signal.drop (i * w.stride)).take w.segmentLength

/-- Scaling constant `sum_w`: the sum of the window coefficients. -/
noncomputable def Welch.sum_w (w : Welch) : ℝ :=
  w.window.sum

/-- Scaling constant `sum_w2`: the sum of the squared window coefficients. -/
noncomputable def Welch.sum_w2 (w : Welch) : ℝ :=
  (w.window.map (fun x => x ^ 2)).sum

/-- The two scaling conventions of the averaged periodogram. -/
inductive Scaling : Type
  | density : Scaling
  | powerSpectrum : Scaling
deriving DecidableEq

/-- The divisor of each bin: `fs * sum_w2` for the spectral density,
`sum_w ^ 2` for the power spectrum. -/
noncomputable def Welch.scaleFactor (w : Welch) : Scaling → ℝ
  | Scaling.density => w.fs * w.sum_w2
  | Scaling.powerSpectrum => w.sum_w ^ 2

/-- Number of one-sided bins: `floor(segment_length / 2) + 1`. -/
def nbins (L : ℕ) : ℕ :=
  L / 2 + 1

/-- The discrete Fourier transform (the external FFT capability treated as a
black box): coefficient `j` is `sum_n x[n] * exp(-2*pi*I*j*n/N)`. -/
noncomputable def dft (x : List ℂ) : List ℂ :=
  (List.range x.length).map (fun j : ℕ =>
    ((List.range x.length).map (fun n : ℕ =>
      x.getD n 0 * Complex.exp (-(2 * (Real.pi : ℂ) * Complex.I * (j : ℂ) * (n : ℂ)) / (x.length : ℂ)))).sum)

/-- Modelled from the spec (welch.rs missing): the `i`-th windowed segment —
the elementwise product of the segment with the window coefficients, lifted to
complex values for the FFT. -/
noncomputable def Welch.windowedSegment (w : Welch) (i : ℕ) : List ℂ :=
  (List.zipWith (fun a b => a * b) (w.segment i) w.window).map (fun x : ℝ => (x : ℂ))

/-- Elementwise accumulation of the per-segment squared-magnitude vectors,
starting from the zero vector of length `n`. -/
def accumulate (n : ℕ) (ls : List (List ℝ)) : List ℝ :=
  ls.foldl (fun acc v => List.zipWith (fun a b => a + b) acc v) (List.replicate n 0)

/-- Modelled from the spec (welch.rs missing): averaging and scaling of the
accumulated squared magnitudes — divide by the segment count `k`, divide by the
scale constant `c`, and double every bin at a strictly positive, strictly
sub-Nyquist frequency (index `j` with `0 < j` and `2*j < L`). -/
noncomputable def averageAndScale (L k : ℕ) (c : ℝ) (ls : List (List ℝ)) : List ℝ :=
  ((accumulate (nbins L) ls).map (fun x => x / (k : ℝ))).mapIdx (fun j x =>
    if 0 < j ∧ 2 * j < L then 2 * (x / c) else x / c)

/-- Modelled from the spec (periodogram.rs missing): the returned periodogram
value object — the owned one-sided estimate together with the sampling
frequency and segment length from which the frequency axis is derived. -/
structure Periodogram : Type where
  values : List ℝ
  fs : ℝ
  segmentLength : ℕ

/-- Modelled from the spec (periodogram.rs missing): the frequency axis — bin
`i` maps to `i * fs / segment_length`, for `i` in `[0, values.len())`,
recomputed on each call. -/
noncomputable def Periodogram.frequency (p : Periodogram) : List ℝ :=
  (List.range p.values.length).map (fun i : ℕ => (i : ℝ) * p.fs / (p.segmentLength : ℝ))

/-- The squared magnitudes of the first `nbins` DFT coefficients of one
windowed segment. -/
noncomputable def Welch.segmentSqMags (w : Welch) (i : ℕ) : List ℝ :=
  ((dft (w.windowedSegment i)).take (nbins w.segmentLength)).map Complex.normSq

/-- Modelled from the spec (welch.rs and periodogram.rs missing): the averaged,
scaled one-sided periodogram, recomputed fresh on every call. -/
noncomputable def Welch.periodogram (w : Welch) (s : Scaling) : Periodogram :=
  { values := averageAndScale w.segmentLength w.k (w.scaleFactor s)
      ((List.range w.k).map (fun i => w.segmentSqMags i))
    fs := w.fs
    segmentLength := w.segmentLength }

/-- One observable call to `periodogram()`: the returned value object paired
with the caller-visible estimator state after the call (the estimator is only
borrowed, so the state is returned unchanged). -/
noncomputable def Welch.callPeriodogram (w : Welch) (s : Scaling) : Periodogram × Welch :=
  (w.periodogram s, w)

/-- Error-propagating traversal: apply `f` to every element, stopping at the
first failure. -/
def tryMap {α β ε : Type} (f : α → Except ε β) : List α → Except ε (List β)
  | [] => Except.ok []
  | a :: as =>
    match f a with
    | Except.error e => Except.error e
    | Except.ok b =>
      match tryMap f as with
      | Except.error e => Except.error e
      | Except.ok bs => Except.ok (b :: bs)

/-- Modelled from the spec (welch.rs missing): the periodogram computation with
an explicit, fallible external FFT capability; a transform failure is
propagated to the caller as a fallible result. -/
noncomputable def Welch.periodogramWith {ε : Type} (fft : List ℂ → Except ε (List ℂ))
    (w : Welch) (s : Scaling) : Except ε Periodogram :=
  (tryMap (fun i =>
      Except.map (fun X => (X.take (nbins w.segmentLength)).map Complex.normSq)
        (fft (w.windowedSegment i)))
    (List.range w.k)).map (fun sq =>
      { values := averageAndScale w.segmentLength w.k (w.scaleFactor s) sq
        fs := w.fs
        segmentLength := w.segmentLength })

/-- One observable call to the fallible periodogram: result paired with the
caller-visible estimator state after the call. -/
noncomputable def Welch.callPeriodogramWith {ε : Type} (fft : List ℂ → Except ε (List ℂ))
    (w : Welch) (s : Scaling) : Except ε Periodogram × Welch :=
  (w.periodogramWith fft s, w)

/-- Modelled from the spec (welch.rs missing): the display/introspection output
of a Welch estimator — the active configuration: sampling frequency, segment
length, overlap and window kind. -/
def Welch.displayInfo (w : Welch) : ℝ × ℕ × ℕ × WindowKind :=
  (w.fs, w.segmentLength, w.overlap, w.windowKind)

/-- `PowerSpectrum` (from power_spectrum.rs): a wrapper holding a Welch
estimator and no other state (the `PhantomData` fields carry no data). -/
structure PowerSpectrum : Type where
  welch : Welch

/-- `PowerSpectrum::periodogram` (power_spectrum.rs): forwards to the inner
estimator's power-spectrum periodogram. -/
noncomputable def PowerSpectrum.periodogram (p : PowerSpectrum) : Periodogram :=
  p.welch.periodogram Scaling.powerSpectrum

/-- `Display for PowerSpectrum` (power_spectrum.rs): forwards to the inner
estimator's display output. -/
def PowerSpectrum.displayInfo (p : PowerSpectrum) : ℝ × ℕ × ℕ × WindowKind :=
  p.welch.displayInfo

/-- `Build for Builder` into `PowerSpectrum` (power_spectrum.rs): builds the
inner Welch estimator with the rectangular window fixed and wraps it. -/
noncomputable def PowerSpectrum.build (b : Builder) : Except BuildError PowerSpectrum :=
  Except.map (fun w => { welch := w }) (Builder.build { b with windowKind := WindowKind.one })

/-- Modelled from the spec (spectral_density.rs missing): `SpectralDensity`, a
wrapper holding a Welch estimator and no other state. -/
structure SpectralDensity : Type where
  welch : Welch

/-- Modelled from the spec (spectral_density.rs missing): forwards to the inner
estimator's spectral-density periodogram. -/
noncomputable def SpectralDensity.periodogram (p : SpectralDensity) : Periodogram :=
  p.welch.periodogram Scaling.density

/-- Modelled from the spec (spectral_density.rs missing): forwards to the inner
estimator's display output. -/
def SpectralDensity.displayInfo (p : SpectralDensity) : ℝ × ℕ × ℕ × WindowKind :=
  p.welch.displayInfo

/-- Modelled from the spec (spectral_density.rs missing): builds the inner
Welch estimator with the Hann window fixed and wraps it. -/
noncomputable def SpectralDensity.build (b : Builder) : Except BuildError SpectralDensity :=
  Except.map (fun w => { welch := w }) (Builder.build { b with windowKind := WindowKind.hann })

/-! ### Helper lemmas -/

lemma One.coefficients_len (L : ℕ) : (One.coefficients L).length = L := by
  simp [One.coefficients]

lemma Hann.coefficients_len_eq (L : ℕ) : (Hann.coefficients L).length = L := by
  unfold Hann.coefficients
  split
  · simp_all
  · rw [List.length_map, List.length_range]

lemma WindowKind.coefficients_full_length (k : WindowKind) (L : ℕ) :
    (k.coefficients L).length = L := by
  cases k
  · exact One.coefficients_len L
  · exact Hann.coefficients_len_eq L

lemma WindowKind.coefficients_nonneg (k : WindowKind) (L : ℕ) :
    ∀ c ∈ k.coefficients L, 0 ≤ c := by
  intro c hc
  cases k
  · rw [WindowKind.coefficients, One.coefficients] at hc
    rw [List.eq_of_mem_replicate hc]
    norm_num
  · rw [WindowKind.coefficients] at hc
    unfold Hann.coefficients at hc
    rcases (em (L = 1)) with h1 | h1
    · rw [if_pos h1] at hc
      simp at hc
      simp [hc]
    · rw [if_neg h1] at hc
      simp only [List.mem_map, List.mem_range] at hc
      obtain ⟨i, -, hi⟩ := hc
      have hcos := Real.cos_le_one (2 * Real.pi * i / ((L : ℝ) - 1))
      rw [← hi]
      nlinarith

/-- Inversion of a successful build: the configuration was valid and the
estimator's fields are exactly the builder's values, with the window
coefficients computed from the window kind. -/
lemma Builder.build_ok_inv (b : Builder) (w : Welch) (hb : b.build = Except.ok w) :
    b.valid ∧
      w = { signal := b.signal, fs := b.fs, segmentLength := b.segmentLength,
            overlap := b.overlap, windowKind := b.windowKind,
            window := b.windowKind.coefficients b.segmentLength } := by
  unfold Builder.build at hb
  split at hb
  · exact absurd hb (by simp)
  · split at hb
    · exact absurd hb (by simp)
    · split at hb
      · exact absurd hb (by simp)
      · split at hb
        · exact absurd hb (by simp)
        · refine ⟨⟨by omega, by omega, by omega, by linarith [lt_of_not_le (by assumption : ¬ b.fs ≤ 0)]⟩, ?_⟩
          exact (Except.ok.injEq _ _).mp hb.symm

/-- A valid configuration builds successfully, to the canonical estimator. -/
lemma Builder.build_of_valid (b : Builder) (hv : b.valid) :
    b.build = Except.ok
      { signal := b.signal, fs := b.fs, segmentLength := b.segmentLength,
        overlap := b.overlap, windowKind := b.windowKind,
        window := b.windowKind.coefficients b.segmentLength } := by
  obtain ⟨h1, h2, h3, h4⟩ := hv
  unfold Builder.build
  rw [if_neg (by omega), if_neg (by omega), if_neg (by omega), if_neg (by linarith)]

/-- An invalid configuration fails to build. -/
lemma Builder.build_isOk_eq_false (b : Builder) (hv : ¬ b.valid) :
    b.build.isOk = false := by
  rcases h : b.build with e | w
  · rfl
  · exact absurd (Builder.build_ok_inv b w h).1 hv

lemma Welch.stride_pos (w : Welch) (h : w.overlap < w.segmentLength) : 0 < w.stride := by
  unfold Welch.stride
  omega

lemma Welch.k_pos (w : Welch) : 0 < w.k :=
  Nat.add_pos_left Nat.one_pos _

/-- A full segment fits at index `i` exactly when `i < k`. -/
lemma Welch.lt_k_iff (w : Welch) (hL : w.segmentLength ≤ w.signal.length)
    (hs : 0 < w.stride) (i : ℕ) :
    i < w.k ↔ i * w.stride + w.segmentLength ≤ w.signal.length := by
  unfold Welch.k
  rw [Nat.add_comm, Nat.lt_succ_iff, Nat.le_div_iff_mul_le hs]
  constructor
  · intro h2
    calc i * w.stride + w.segmentLength
        ≤ (w.signal.length - w.segmentLength) + w.segmentLength :=
          Nat.add_le_add_right h2 _
      _ = w.signal.length := Nat.sub_add_cancel hL
  · intro h2
    exact Nat.le_sub_of_add_le h2

lemma Welch.segment_length (w : Welch) (i : ℕ)
    (hfit : i * w.stride + w.segmentLength ≤ w.signal.length) :
    (w.segment i).length = w.segmentLength := by
  unfold Welch.segment
  rw [List.length_take, List.length_drop]
  generalize i * w.stride = m at hfit
  omega

lemma Welch.segment_getD (w : Welch) (i j : ℕ)
    (hfit : i * w.stride + w.segmentLength ≤ w.signal.length)
    (hj : j < w.segmentLength) :
    (w.segment i).getD j 0 = w.signal.getD (i * w.stride + j) 0 := by
  have hlen := w.segment_length i hfit
  have hj1 : j < (w.segment i).length := by omega
  have hj2 : i * w.stride + j < w.signal.length := by
    generalize i * w.stride = m at hfit ⊢
    omega
  rw [List.getD_eq_getElem _ _ hj1, List.getD_eq_getElem _ _ hj2]
  unfold Welch.segment
  simp only [List.getElem_take, List.getElem_drop]

lemma Welch.windowedSegment_length (w : Welch) (i : ℕ)
    (hfit : i * w.stride + w.segmentLength ≤ w.signal.length)
    (hw : w.window.length = w.segmentLength) :
    (w.windowedSegment i).length = w.segmentLength := by
  unfold Welch.windowedSegment
  rw [List.length_map, List.length_zipWith, w.segment_length i hfit, hw, Nat.min_self]

lemma dft_length (x : List ℂ) : (dft x).length = x.length := by
  unfold dft
  rw [List.length_map, List.length_range]

lemma nbins_le (L : ℕ) (h : 0 < L) : nbins L ≤ L := by
  unfold nbins
  omega

lemma Welch.segmentSqMags_length (w : Welch) (i : ℕ)
    (hfit : i * w.stride + w.segmentLength ≤ w.signal.length)
    (hw : w.window.length = w.segmentLength) (hL : 0 < w.segmentLength) :
    (w.segmentSqMags i).length = nbins w.segmentLength := by
  unfold Welch.segmentSqMags
  rw [List.length_map, List.length_take, dft_length, w.windowedSegment_length i hfit hw]
  exact min_eq_left (nbins_le _ hL)

lemma Welch.segmentSqMags_getD (w : Welch) (i j : ℕ)
    (hfit : i * w.stride + w.segmentLength ≤ w.signal.length)
    (hw : w.window.length = w.segmentLength) (hL : 0 < w.segmentLength)
    (hj : j < nbins w.segmentLength) :
    (w.segmentSqMags i).getD j 0
      = Complex.normSq ((dft (w.windowedSegment i)).getD j 0) := by
  have h1 := w.segmentSqMags_length i hfit hw hL
  have hdl : (dft (w.windowedSegment i)).length = w.segmentLength := by
    rw [dft_length, w.windowedSegment_length i hfit hw]
  have hj2 : j < (dft (w.windowedSegment i)).length := by
    have := nbins_le w.segmentLength hL
    omega
  rw [List.getD_eq_getElem _ _ (by omega), List.getD_eq_getElem _ _ hj2]
  unfold Welch.segmentSqMags
  simp only [List.getElem_map, List.getElem_take]

lemma foldl_zipAdd_length (ls : List (List ℝ)) :
    ∀ acc : List ℝ, (∀ l ∈ ls, acc.length ≤ l.length) →
      (ls.foldl (fun a v => List.zipWith (fun x y => x + y) a v) acc).length = acc.length := by
  induction ls with
  | nil =>
    intro acc _
    rfl
  | cons l rest ih =>
    intro acc h
    have hlen : (List.zipWith (fun x y => x + y) acc l).length = acc.length := by
      rw [List.length_zipWith]
      exact min_eq_left (h l (by simp))
    rw [List.foldl_cons, ih _ ?_, hlen]
    intro l2 hl2
    rw [hlen]
    exact h l2 (by simp [hl2])

lemma foldl_zipAdd_getD (ls : List (List ℝ)) :
    ∀ acc : List ℝ, (∀ l ∈ ls, acc.length ≤ l.length) → ∀ j, j < acc.length →
      (ls.foldl (fun a v => List.zipWith (fun x y => x + y) a v) acc).getD j 0
        = acc.getD j 0 + (ls.map (fun l => l.getD j 0)).sum := by
  induction ls with
  | nil =>
    intro acc _ j _
    simp
  | cons l rest ih =>
    intro acc h j hj
    have hll : acc.length ≤ l.length := h l (by simp)
    have hlen : (List.zipWith (fun x y => x + y) acc l).length = acc.length := by
      rw [List.length_zipWith]
      exact min_eq_left hll
    have hcond : ∀ l2 ∈ rest, (List.zipWith (fun x y => x + y) acc l).length ≤ l2.length := by
      intro l2 hl2
      rw [hlen]
      exact h l2 (by simp [hl2])
    rw [List.foldl_cons, ih _ hcond j (by omega)]
    have hz : (List.zipWith (fun x y => x + y) acc l).getD j 0 = acc.getD j 0 + l.getD j 0 := by
      rw [List.getD_eq_getElem _ _ (by omega), List.getD_eq_getElem _ _ hj,
        List.getD_eq_getElem _ _ (by omega), List.getElem_zipWith]
    rw [hz, List.map_cons, List.sum_cons]
    ring

lemma accumulate_length (n : ℕ) (ls : List (List ℝ)) (h : ∀ l ∈ ls, l.length = n) :
    (accumulate n ls).length = n := by
  unfold accumulate
  rw [foldl_zipAdd_length ls _ ?_, List.length_replicate]
  intro l hl
  rw [List.length_replicate, h l hl]

lemma accumulate_getD (n : ℕ) (ls : List (List ℝ)) (h : ∀ l ∈ ls, l.length = n)
    (j : ℕ) (hj : j < n) :
    (accumulate n ls).getD j 0 = (ls.map (fun l => l.getD j 0)).sum := by
  unfold accumulate
  rw [foldl_zipAdd_getD ls _ ?_ j (by simpa using hj)]
  · rw [List.getD_eq_getElem _ _ (by simpa using hj), List.getElem_replicate, zero_add]
  · intro l hl
    rw [List.length_replicate, h l hl]

lemma averageAndScale_length (L k : ℕ) (c : ℝ) (ls : List (List ℝ))
    (h : ∀ l ∈ ls, l.length = nbins L) :
    (averageAndScale L k c ls).length = nbins L := by
  unfold averageAndScale
  rw [List.length_mapIdx, List.length_map, accumulate_length _ _ h]

lemma averageAndScale_getD (L k : ℕ) (c : ℝ) (ls : List (List ℝ))
    (h : ∀ l ∈ ls, l.length = nbins L) (j : ℕ) (hj : j < nbins L) :
    (averageAndScale L k c ls).getD j 0 =
      (if 0 < j ∧ 2 * j < L then 2 else 1) *
        ((ls.map (fun l => l.getD j 0)).sum / (k : ℝ) / c) := by
  have hacc := accumulate_length (nbins L) ls h
  have hlen : (averageAndScale L k c ls).length = nbins L := averageAndScale_length L k c ls h
  rw [List.getD_eq_getElem _ _ (by omega)]
  unfold averageAndScale
  simp only [List.getElem_mapIdx, List.getElem_map]
  rw [← List.getD_eq_getElem (accumulate (nbins L) ls) 0 (by omega),
    accumulate_getD (nbins L) ls h j hj]
  split_ifs <;> ring

/-- The facts about the estimator's own fields that a successful build
guarantees. -/
lemma Welch.facts_of_build {b : Builder} {w : Welch} (hb : b.build = Except.ok w) :
    0 < w.segmentLength ∧ w.segmentLength ≤ w.signal.length ∧
      w.overlap < w.segmentLength ∧ 0 < w.fs ∧
      w.window.length = w.segmentLength := by
  obtain ⟨⟨h1, h2, h3, h4⟩, hw⟩ := Builder.build_ok_inv b w hb
  subst hw
  exact ⟨h1, h2, h3, h4, WindowKind.coefficients_full_length _ _⟩

lemma Welch.sqMagsList_lengths {w : Welch} (hL : 0 < w.segmentLength)
    (hN : w.segmentLength ≤ w.signal.length) (ho : w.overlap < w.segmentLength)
    (hw : w.window.length = w.segmentLength) :
    ∀ l ∈ (List.range w.k).map (fun i => w.segmentSqMags i), l.length = nbins w.segmentLength := by
  intro l hl
  obtain ⟨i, hi, rfl⟩ := List.mem_map.mp hl
  have hs := w.stride_pos ho
  have hfit := (w.lt_k_iff hN hs i).mp (List.mem_range.mp hi)
  exact w.segmentSqMags_length i hfit hw hL

lemma Welch.periodogram_length {w : Welch} (hL : 0 < w.segmentLength)
    (hN : w.segmentLength ≤ w.signal.length) (ho : w.overlap < w.segmentLength)
    (hw : w.window.length = w.segmentLength) (s : Scaling) :
    (w.periodogram s).values.length = nbins w.segmentLength := by
  unfold Welch.periodogram
  exact averageAndScale_length _ _ _ _ (Welch.sqMagsList_lengths hL hN ho hw)

lemma Welch.periodogram_getD {w : Welch} (hL : 0 < w.segmentLength)
    (hN : w.segmentLength ≤ w.signal.length) (ho : w.overlap < w.segmentLength)
    (hw : w.window.length = w.segmentLength) (s : Scaling) (j : ℕ)
    (hj : j < nbins w.segmentLength) :
    (w.periodogram s).values.getD j 0 =
      (if 0 < j ∧ 2 * j < w.segmentLength then 2 else 1) *
        (((List.range w.k).map
            (fun i => Complex.normSq ((dft (w.windowedSegment i)).getD j 0))).sum
          / (w.k : ℝ) / w.scaleFactor s) := by
  unfold Welch.periodogram
  rw [averageAndScale_getD _ _ _ _ (Welch.sqMagsList_lengths hL hN ho hw) j hj]
  have hsum :
      (((List.range w.k).map (fun i => w.segmentSqMags i)).map (fun l => l.getD j 0))
        = (List.range w.k).map
            (fun i => Complex.normSq ((dft (w.windowedSegment i)).getD j 0)) := by
    rw [List.map_map]
    apply List.map_congr_left
    intro i hi
    have hs := w.stride_pos ho
    have hfit := (w.lt_k_iff hN hs i).mp (List.mem_range.mp hi)
    simp only [Function.comp]
    exact w.segmentSqMags_getD i j hfit hw hL hj
  rw [hsum]

lemma Periodogram.frequency_length (p : Periodogram) :
    p.frequency.length = p.values.length := by
  unfold Periodogram.frequency
  rw [List.length_map, List.length_range]

lemma Periodogram.frequency_getD (p : Periodogram) (i : ℕ) (hi : i < p.values.length) :
    p.frequency.getD i 0 = (i : ℝ) * p.fs / (p.segmentLength : ℝ) := by
  have hl : i < p.frequency.length := by
    rw [p.frequency_length]
    omega
  rw [List.getD_eq_getElem _ _ hl]
  unfold Periodogram.frequency
  simp only [List.getElem_map, List.getElem_range]

lemma Welch.scaleFactor_nonneg (w : Welch) (hfs : 0 ≤ w.fs) (s : Scaling) :
    0 ≤ w.scaleFactor s := by
  cases s
  · unfold Welch.scaleFactor Welch.sum_w2
    apply mul_nonneg hfs
    apply List.sum_nonneg
    intro x hx
    obtain ⟨y, -, rfl⟩ := List.mem_map.mp hx
    positivity
  · unfold Welch.scaleFactor
    positivity

lemma Welch.periodogram_getD_nonneg {w : Welch} (hL : 0 < w.segmentLength)
    (hN : w.segmentLength ≤ w.signal.length) (ho : w.overlap < w.segmentLength)
    (hw : w.window.length = w.segmentLength) (hfs : 0 ≤ w.fs) (s : Scaling) (j : ℕ) :
    0 ≤ (w.periodogram s).values.getD j 0 := by
  rcases lt_or_ge j (nbins w.segmentLength) with hj | hj
  · rw [Welch.periodogram_getD hL hN ho hw s j hj]
    apply mul_nonneg
    · split_ifs <;> norm_num
    · apply div_nonneg (div_nonneg ?_ (by positivity)) (w.scaleFactor_nonneg hfs s)
      apply List.sum_nonneg
      intro x hx
      obtain ⟨i, -, rfl⟩ := List.mem_map.mp hx
      exact Complex.normSq_nonneg _
  · rw [List.getD_eq_default]
    rw [Welch.periodogram_length hL hN ho hw s]
    omega

/-- The index form of the doubling condition matches its frequency form: bin
`j`'s frequency `j * fs / L` is strictly positive and strictly below the
Nyquist frequency `fs / 2` exactly when `0 < j` and `2 * j < L`. -/
lemma doubling_iff (L j : ℕ) (fs : ℝ) (hfs : 0 < fs) (hL : 0 < L) :
    (0 < (j : ℝ) * fs / (L : ℝ) ∧ (j : ℝ) * fs / (L : ℝ) < fs / 2) ↔
      (0 < j ∧ 2 * j < L) := by
  have hL2 : (0 : ℝ) < (L : ℝ) := by exact_mod_cast hL
  constructor
  · rintro ⟨h1, h2⟩
    constructor
    · rcases Nat.eq_zero_or_pos j with rfl | hj
      · simp at h1
      · exact hj
    · have h3 := (div_lt_div_iff₀ hL2 two_pos).mp h2
      have h4 : fs * (2 * (j : ℝ)) < fs * (L : ℝ) := by nlinarith
      have h5 := lt_of_mul_lt_mul_left h4 (le_of_lt hfs)
      exact_mod_cast h5
  · rintro ⟨hj, hjL⟩
    have hj2 : (0 : ℝ) < (j : ℝ) := by exact_mod_cast hj
    have hjL2 : 2 * (j : ℝ) < (L : ℝ) := by exact_mod_cast hjL
    refine ⟨div_pos (mul_pos hj2 hfs) hL2, ?_⟩
    rw [div_lt_div_iff₀ hL2 two_pos]
    nlinarith

/-! ### Concrete fixtures for witnesses (the spec's DC-only scenario:
8 unit samples, fs = 8, segment length 4, overlap 0, rectangular window) -/

def bEx : Builder :=
  { signal := [1, 1, 1, 1, 1, 1, 1, 1], fs := 8, segmentLength := 4, overlap := 0,
    windowKind := WindowKind.one }

def wEx : Welch :=
  { signal := [1, 1, 1, 1, 1, 1, 1, 1], fs := 8, segmentLength := 4, overlap := 0,
    windowKind := WindowKind.one, window := One.coefficients 4 }

lemma bEx_valid : bEx.valid := by
  refine ⟨by norm_num [bEx], ?_, by norm_num [bEx], by norm_num [bEx]⟩
  simp [bEx]

lemma bEx_build : bEx.build = Except.ok wEx := by
  rw [Builder.build_of_valid bEx bEx_valid]
  rfl

def bBad : Builder :=
  { signal := [1, 1], fs := 1, segmentLength := 0, overlap := 0,
    windowKind := WindowKind.one }

/-- An FFT stand-in that rejects every input. -/
def fftFail : List ℂ → Except ℕ (List ℂ) :=
  fun _ => Except.error 0

/-! ### Claim theorems -/

/-- Claim C1: for every validly constructed Welch estimator, every bin `j` of
`periodogram()` equals the arithmetic mean over the `k` segments of the squared
DFT magnitudes of the windowed segments, divided by `fs * sum_w2` in the
spectral-density configuration and by `sum_w ^ 2` in the power-spectrum
configuration, doubled exactly at the bins whose frequency is strictly
positive and strictly below Nyquist (so neither the DC bin nor, for even
segment length, the Nyquist bin is doubled). -/
theorem claim_C1_periodogram_bins (b : Builder) (w : Welch) (s : Scaling)
    (hb : b.build = Except.ok w) (j : ℕ) (hj : j < nbins w.segmentLength) :
    ((w.periodogram s).values.getD j 0 =
      (if 0 < j ∧ 2 * j < w.segmentLength then 2 else 1) *
        (((List.range w.k).map
            (fun i => Complex.normSq ((dft (w.windowedSegment i)).getD j 0))).sum
          / (w.k : ℝ)
          / (match s with
             | Scaling.density => w.fs * w.sum_w2
             | Scaling.powerSpectrum => w.sum_w ^ 2))) ∧
    ((0 < (j : ℝ) * w.fs / (w.segmentLength : ℝ) ∧
        (j : ℝ) * w.fs / (w.segmentLength : ℝ) < w.fs / 2) ↔
      (0 < j ∧ 2 * j < w.segmentLength)) := by
  obtain ⟨hL, hN, ho, hfs, hw⟩ := Welch.facts_of_build hb
  refine ⟨?_, doubling_iff _ _ _ hfs hL⟩
  cases s
  · exact Welch.periodogram_getD hL hN ho hw Scaling.density j hj
  · exact Welch.periodogram_getD hL hN ho hw Scaling.powerSpectrum j hj

/-- Witness for C1 at the DC bin of the concrete fixture. -/
theorem claim_C1_witness :
    bEx.build = Except.ok wEx ∧
    ((wEx.periodogram Scaling.powerSpectrum).values.getD 0 0 =
      (if 0 < 0 ∧ 2 * 0 < wEx.segmentLength then 2 else 1) *
        (((List.range wEx.k).map
            (fun i => Complex.normSq ((dft (wEx.windowedSegment i)).getD 0 0))).sum
          / (wEx.k : ℝ) / (wEx.sum_w ^ 2))) :=
  ⟨bEx_build,
    (claim_C1_periodogram_bins bEx wEx Scaling.powerSpectrum bEx_build 0
      (by norm_num [nbins, wEx])).1⟩

/-- Claim C2: for every valid configuration, `periodogram()` returns
`segment_length / 2 + 1` bins and `frequency()` has the same length. -/
theorem claim_C2_output_length (b : Builder) (w : Welch) (s : Scaling)
    (hb : b.build = Except.ok w) :
    (w.periodogram s).values.length = w.segmentLength / 2 + 1 ∧
    (w.periodogram s).frequency.length = w.segmentLength / 2 + 1 := by
  obtain ⟨hL, hN, ho, -, hw⟩ := Welch.facts_of_build hb
  have h1 := Welch.periodogram_length hL hN ho hw s
  exact ⟨h1, by rw [Periodogram.frequency_length]; exact h1⟩

/-- Witness for C2 on the concrete fixture. -/
theorem claim_C2_witness :
    bEx.build = Except.ok wEx ∧
    (wEx.periodogram Scaling.powerSpectrum).values.length = wEx.segmentLength / 2 + 1 ∧
    (wEx.periodogram Scaling.powerSpectrum).frequency.length = wEx.segmentLength / 2 + 1 :=
  ⟨bEx_build,
    (claim_C2_output_length bEx wEx Scaling.powerSpectrum bEx_build).1,
    (claim_C2_output_length bEx wEx Scaling.powerSpectrum bEx_build).2⟩

/-- Claim C3: for every signal and valid configuration, exactly
`k = 1 + floor((N - L) / (L - o))` segments are processed; segment `i` is the
`L`-wide view starting at `i * (L - o)`, and an index is processed exactly
while a full segment fits. -/
theorem claim_C3_segmentation (b : Builder) (w : Welch) (hb : b.build = Except.ok w) :
    w.k = 1 + (w.signal.length - w.segmentLength) / (w.segmentLength - w.overlap) ∧
    (∀ i, i < w.k ↔
      i * (w.segmentLength - w.overlap) + w.segmentLength ≤ w.signal.length) ∧
    (∀ i, i < w.k → (w.segment i).length = w.segmentLength ∧
      ∀ j, j < w.segmentLength →
        (w.segment i).getD j 0 =
          w.signal.getD (i * (w.segmentLength - w.overlap) + j) 0) := by
  obtain ⟨hL, hN, ho, -, -⟩ := Welch.facts_of_build hb
  have hs := w.stride_pos ho
  refine ⟨rfl, fun i => w.lt_k_iff hN hs i, fun i hi => ?_⟩
  have hfit := (w.lt_k_iff hN hs i).mp hi
  exact ⟨w.segment_length i hfit, fun j hj => w.segment_getD i j hfit hj⟩

/-- Witness for C3 on the concrete fixture. -/
theorem claim_C3_witness :
    bEx.build = Except.ok wEx ∧
    wEx.k = 1 + (wEx.signal.length - wEx.segmentLength) / (wEx.segmentLength - wEx.overlap) ∧
    (1 < wEx.k ↔
      1 * (wEx.segmentLength - wEx.overlap) + wEx.segmentLength ≤ wEx.signal.length) :=
  ⟨bEx_build, (claim_C3_segmentation bEx wEx bEx_build).1,
    (claim_C3_segmentation bEx wEx bEx_build).2.1 1⟩

/-- Claim C4: for every `L >= 1` each window kind produces exactly `L`
non-negative coefficients; the rectangular window is all ones, the Hann window
is `0.5 * (1 - cos(2*pi*i/(L-1)))` for `L > 1` and `[1]` for `L = 1`; and the
scaling constants `sum_w` and `sum_w2` are the sum of the coefficients and the
sum of their squares. -/
theorem claim_C4_window_coefficients (L : ℕ) (_h : 1 ≤ L) :
    (One.coefficients L).length = L ∧
    (Hann.coefficients L).length = L ∧
    (∀ k : WindowKind, ∀ c ∈ k.coefficients L, 0 ≤ c) ∧
    (∀ i, i < L → (One.coefficients L).getD i 0 = 1) ∧
    (1 < L → ∀ i, i < L → (Hann.coefficients L).getD i 0
        = 0.5 * (1 - Real.cos (2 * Real.pi * (i : ℝ) / ((L : ℝ) - 1)))) ∧
    (L = 1 → Hann.coefficients L = [1]) ∧
    (∀ w : Welch, w.sum_w = w.window.sum ∧
      w.sum_w2 = (w.window.map (fun x => x ^ 2)).sum) := by
  refine ⟨One.coefficients_len L, Hann.coefficients_len_eq L,
    fun k => k.coefficients_nonneg L, ?_, ?_, ?_, fun w => ⟨rfl, rfl⟩⟩
  · intro i hi
    unfold One.coefficients
    rw [List.getD_eq_getElem _ _ (by simpa using hi), List.getElem_replicate]
  · intro hL i hi
    unfold Hann.coefficients
    rw [if_neg (by omega)]
    rw [List.getD_eq_getElem _ _ (by simpa using hi)]
    simp only [List.getElem_map, List.getElem_range]
  · intro hL
    unfold Hann.coefficients
    rw [if_pos hL]

/-- Witness for C4 at `L = 3`. -/
theorem claim_C4_witness :
    (1 : ℕ) ≤ 3 ∧ (One.coefficients 3).length = 3 ∧ (Hann.coefficients 3).length = 3 ∧
    (One.coefficients 3).getD 1 0 = 1 ∧
    (Hann.coefficients 3).getD 1 0
      = 0.5 * (1 - Real.cos (2 * Real.pi * ((1 : ℕ) : ℝ) / (((3 : ℕ) : ℝ) - 1))) :=
  ⟨by norm_num, (claim_C4_window_coefficients 3 (by norm_num)).1,
    (claim_C4_window_coefficients 3 (by norm_num)).2.1,
    (claim_C4_window_coefficients 3 (by norm_num)).2.2.2.1 1 (by norm_num),
    (claim_C4_window_coefficients 3 (by norm_num)).2.2.2.2.1 (by norm_num) 1 (by norm_num)⟩

/-- Claim C5: `build()` on a configuration violating an invariant (zero segment
length, segment longer than the signal, overlap at least the segment length,
non-positive sampling frequency) fails with a construction-time error instead
of returning an estimator, and a successful build never clamps or defaults any
configured value. -/
theorem claim_C5_build_validation (b : Builder) :
    (¬ b.valid → b.build.isOk = false) ∧
    (∀ w, b.build = Except.ok w →
      b.valid ∧ w.signal = b.signal ∧ w.fs = b.fs ∧ w.segmentLength = b.segmentLength ∧
        w.overlap = b.overlap ∧ w.windowKind = b.windowKind ∧
        w.window = b.windowKind.coefficients b.segmentLength) := by
  refine ⟨Builder.build_isOk_eq_false b, fun w hb => ?_⟩
  obtain ⟨hv, hw⟩ := Builder.build_ok_inv b w hb
  subst hw
  exact ⟨hv, rfl, rfl, rfl, rfl, rfl, rfl⟩

/-- Witness for C5: a zero segment length fails construction. -/
theorem claim_C5_witness : ¬ bBad.valid ∧ bBad.build.isOk = false := by
  have hnv : ¬ bBad.valid := by
    intro hv
    have := hv.1
    simp [bBad] at this
  exact ⟨hnv, (claim_C5_build_validation bBad).1 hnv⟩

/-- Claim C6: if the external FFT capability fails on the configured segment
length, every `periodogram()` call surfaces that failure to the caller as a
fallible result, and the caller-visible estimator state is unchanged. -/
theorem claim_C6_fft_failure {ε : Type} (b : Builder) (w : Welch) (s : Scaling)
    (fft : List ℂ → Except ε (List ℂ)) (e : ε)
    (hb : b.build = Except.ok w)
    (hfft : ∀ x : List ℂ, x.length = w.segmentLength → fft x = Except.error e) :
    w.callPeriodogramWith fft s = (Except.error e, w) := by
  obtain ⟨hL, hN, ho, -, hw⟩ := Welch.facts_of_build hb
  have hs := w.stride_pos ho
  have hfit := (w.lt_k_iff hN hs 0).mp w.k_pos
  have hws : (w.windowedSegment 0).length = w.segmentLength :=
    w.windowedSegment_length 0 hfit hw
  have hf0 : Except.map (fun X => (X.take (nbins w.segmentLength)).map Complex.normSq)
      (fft (w.windowedSegment 0)) = Except.error e := by
    rw [hfft _ hws]
    rfl
  unfold Welch.callPeriodogramWith Welch.periodogramWith
  have hk : w.k = ((w.signal.length - w.segmentLength) / w.stride) + 1 := Nat.add_comm 1 _
  rw [hk, List.range_succ_eq_map]
  simp only [tryMap, hf0]
  rfl

/-- Witness for C6: an FFT that rejects every input makes the concrete
fixture's periodogram call fail, leaving the estimator unchanged. -/
theorem claim_C6_witness :
    fftFail (wEx.windowedSegment 0) = Except.error 0 ∧
    wEx.callPeriodogramWith fftFail Scaling.powerSpectrum = (Except.error 0, wEx) :=
  ⟨rfl, claim_C6_fft_failure bEx wEx Scaling.powerSpectrum fftFail 0 bEx_build
    (fun _ _ => rfl)⟩

/-- Claim C7: `PowerSpectrum` and `SpectralDensity` are transparent wrappers
around a Welch estimator with a fixed window choice (`One`, resp. `Hann`):
`periodogram()` and the display output forward to the inner estimator, the
wrappers hold no state beyond it, and building a wrapper builds the inner
estimator with the corresponding window kind fixed. -/
theorem claim_C7_transparent_wrappers :
    (∀ p : PowerSpectrum, p.periodogram = p.welch.periodogram Scaling.powerSpectrum) ∧
    (∀ p : PowerSpectrum, p.displayInfo = p.welch.displayInfo) ∧
    (∀ p q : PowerSpectrum, p.welch = q.welch → p = q) ∧
    (∀ b : Builder, PowerSpectrum.build b =
      Except.map (fun w => { welch := w })
        (Builder.build { b with windowKind := WindowKind.one })) ∧
    (∀ p : SpectralDensity, p.periodogram = p.welch.periodogram Scaling.density) ∧
    (∀ p : SpectralDensity, p.displayInfo = p.welch.displayInfo) ∧
    (∀ p q : SpectralDensity, p.welch = q.welch → p = q) ∧
    (∀ b : Builder, SpectralDensity.build b =
      Except.map (fun w => { welch := w })
        (Builder.build { b with windowKind := WindowKind.hann })) := by
  refine ⟨fun p => rfl, fun p => rfl, ?_, fun b => rfl, fun p => rfl, fun p => rfl,
    ?_, fun b => rfl⟩
  · intro p q h
    cases p
    cases q
    simpa using h
  · intro p q h
    cases p
    cases q
    simpa using h

/-- Witness for C7 on the concrete fixture. -/
theorem claim_C7_witness :
    PowerSpectrum.periodogram { welch := wEx } = wEx.periodogram Scaling.powerSpectrum ∧
    PowerSpectrum.displayInfo { welch := wEx } = wEx.displayInfo ∧
    ({ welch := wEx } : PowerSpectrum) = { welch := wEx } :=
  ⟨claim_C7_transparent_wrappers.1 { welch := wEx },
    claim_C7_transparent_wrappers.2.1 { welch := wEx },
    claim_C7_transparent_wrappers.2.2.1 { welch := wEx } { welch := wEx } rfl⟩

/-- Claim C8: every element of every periodogram returned by a validly
constructed estimator is non-negative. -/
theorem claim_C8_nonneg (b : Builder) (w : Welch) (s : Scaling)
    (hb : b.build = Except.ok w) :
    (∀ x ∈ (w.periodogram s).values, 0 ≤ x) ∧
    (∀ j : ℕ, 0 ≤ (w.periodogram s).values.getD j 0) := by
  obtain ⟨hL, hN, ho, hfs, hw⟩ := Welch.facts_of_build hb
  have hg : ∀ j : ℕ, 0 ≤ (w.periodogram s).values.getD j 0 :=
    fun j => Welch.periodogram_getD_nonneg hL hN ho hw (le_of_lt hfs) s j
  refine ⟨?_, hg⟩
  intro x hx
  obtain ⟨j, hj, rfl⟩ := List.mem_iff_getElem.mp hx
  rw [← List.getD_eq_getElem _ 0 hj]
  exact hg j

/-- Witness for C8 at the DC bin of the concrete fixture. -/
theorem claim_C8_witness :
    bEx.build = Except.ok wEx ∧
    0 ≤ (wEx.periodogram Scaling.powerSpectrum).values.getD 0 0 :=
  ⟨bEx_build, (claim_C8_nonneg bEx wEx Scaling.powerSpectrum bEx_build).2 0⟩

/-- Claim C9: the frequency axis maps bin `i` to `i * fs / segment_length` for
every `i` below the periodogram length; in particular, for `fs = 8` and
`L = 4` the frequency axis is `[0, 2, 4]`. -/
theorem claim_C9_frequency_axis (b : Builder) (w : Welch) (s : Scaling)
    (hb : b.build = Except.ok w) :
    (∀ i, i < (w.periodogram s).values.length →
      (w.periodogram s).frequency.getD i 0 = (i : ℝ) * w.fs / (w.segmentLength : ℝ)) ∧
    (w.fs = 8 → w.segmentLength = 4 → (w.periodogram s).frequency = [0, 2, 4]) := by
  obtain ⟨hL, hN, ho, -, hw⟩ := Welch.facts_of_build hb
  refine ⟨fun i hi => Periodogram.frequency_getD _ i hi, fun hfs8 hL4 => ?_⟩
  have hlen : (w.periodogram s).values.length = 3 := by
    rw [Welch.periodogram_length hL hN ho hw s, hL4]
    rfl
  have hpf : (w.periodogram s).fs = w.fs := rfl
  have hpl : (w.periodogram s).segmentLength = w.segmentLength := rfl
  unfold Periodogram.frequency
  rw [hlen, hpf, hpl, hfs8, hL4]
  have hr : List.range 3 = [0, 1, 2] := rfl
  rw [hr]
  norm_num

/-- Witness for C9 on the concrete fixture: the frequency axis is `[0, 2, 4]`. -/
theorem claim_C9_witness :
    bEx.build = Except.ok wEx ∧ wEx.fs = 8 ∧ wEx.segmentLength = 4 ∧
    (wEx.periodogram Scaling.powerSpectrum).frequency = [0, 2, 4] :=
  ⟨bEx_build, rfl, rfl,
    (claim_C9_frequency_axis bEx wEx Scaling.powerSpectrum bEx_build).2 rfl rfl⟩

/-- Claim C10: `periodogram()` is deterministic and cache-free — a call leaves
the caller-visible estimator state unchanged, a second call on that state
returns an identical sequence, and each call's result is the fresh
recomputation of the estimate from the estimator's configuration (the
estimator state holds no cache that a call could return instead). -/
theorem claim_C10_deterministic (w : Welch) (s : Scaling) :
    ((w.callPeriodogram s).2 = w) ∧
    (((w.callPeriodogram s).2.callPeriodogram s).1 = (w.callPeriodogram s).1) ∧
    ((w.callPeriodogram s).1 = w.periodogram s) :=
  ⟨rfl, rfl, rfl⟩

end WelchSde
